import Mathlib

/-!
Shallow embedding of the core of the `cheese` file-manager backend
(crate `cheese-core`): directory scanner, change watcher, metadata cache
and file operations, together with theorems settling the specification
claims about them.  Each definition is translated from the Rust source it
names; filesystem reads, timestamps and the cancellation signal are passed
in as explicit data, and the embedding models runs in which the underlying
I/O itself does not fail (the claims under study quantify over runs that
reach a non-error end, or over the pure decision logic).
-/

namespace Cheese

/-! ### `fs/mod.rs`: `DirEntry`

`path` is modelled as its list of components (Rust `Path::starts_with`,
used by the cache, is component-wise prefix).  `SystemTime` and `Instant`
are modelled as `Nat` instants; `u64`/`u32` as `Nat`. -/

structure DirEntry where
  name : String
  path : List String
  size : Nat
  modified : Nat
  is_dir : Bool
  is_symlink : Bool
  permissions : Nat
  inode : Nat
deriving DecidableEq

/-- `DirEntry::is_hidden`: the name starts with a dot. -/
def DirEntry.is_hidden (e : DirEntry) : Bool :=
  e.name.startsWith "."

/-! ### `fs/scanner.rs`

A directory read yields, per child, either a `DirEntry` or a stat failure
(`DirEntry::from_path` returning `Err`, which the scanner logs and skips);
we model the children of one directory as `List (Option DirEntry)`.
`ScanResult` is the batch type sent on the result channel; the functions
below return the list of batches sent, in order, for a run that is never
cancelled and whose directory reads succeed. -/

def BATCH_SIZE : Nat := 100

structure ScanResult where
  entries : List DirEntry
  total_count : Nat
  is_complete : Bool
deriving DecidableEq

/-- The body of `Scanner::scan_directory`s read loop plus its final send:
`buf` is the pending `entries` vector, `total` the running `total_count`.
A full batch (`BATCH_SIZE` reached) is sent with `is_complete = false`;
after the loop, a final batch with `is_complete = true` is sent only when
`!entries.is_empty() || total_count == 0`. -/
def scanDirectoryLoop (show_hidden : Bool) :
    List (Option DirEntry) → List DirEntry → Nat → List ScanResult
  | [], buf, total =>
      if !buf.isEmpty || total == 0 then [⟨buf, total, true⟩] else []
  | none :: rest, buf, total =>
      scanDirectoryLoop show_hidden rest buf total
  | some e :: rest, buf, total =>
      if !show_hidden && e.is_hidden then
        scanDirectoryLoop show_hidden rest buf total
      else
        let buf' := buf ++ [e]
        let total' := total + 1
        if BATCH_SIZE ≤ buf'.length then
          ⟨buf', total', false⟩ :: scanDirectoryLoop show_hidden rest [] total'
        else
          scanDirectoryLoop show_hidden rest buf' total'

/-- `Scanner::scan_directory` on a directory whose read yields `children`:
the list of batches sent (validation passed, no cancellation). -/
def scanDirectory (show_hidden : Bool) (children : List (Option DirEntry)) :
    List ScanResult :=
  scanDirectoryLoop show_hidden children [] 0

/-- One node of the scanned tree: a child either fails to stat (`err`,
logged and skipped) or yields an entry together with the children that a
recursive descent into it would read (ignored unless the entry is a
non-symlink directory). -/
inductive FsNode where
  | err : FsNode
  | ok : DirEntry → List FsNode → FsNode

/-- The read loop of `Scanner::scan_recursive_internal` over one
directory's children: returns the full batches sent (each with
`total_count = 0`, `is_complete = false`), the leftover `entries` buffer,
and the children lists of the subdirectories queued for descent, in
order. -/
def scanRecLoop (show_hidden : Bool) :
    List FsNode → List DirEntry →
      List ScanResult × List DirEntry × List (List FsNode)
  | [], buf => ([], buf, [])
  | .err :: rest, buf => scanRecLoop show_hidden rest buf
  | .ok e cs :: rest, buf =>
      if !show_hidden && e.is_hidden then
        scanRecLoop show_hidden rest buf
      else
        let subThis : List (List FsNode) :=
          if e.is_dir && !e.is_symlink then [cs] else []
        let buf' := buf ++ [e]
        if BATCH_SIZE ≤ buf'.length then
          let r := scanRecLoop show_hidden rest []
          (⟨buf', 0, false⟩ :: r.1, r.2.1, subThis ++ r.2.2)
        else
          let r := scanRecLoop show_hidden rest buf'
          (r.1, r.2.1, subThis ++ r.2.2)

/-- Descend into each queued subdirectory in order
(`for subdir in subdirs`), scanning each with `f`. -/
def scanSubdirsWith (f : List FsNode → List ScanResult) :
    List (List FsNode) → List ScanResult
  | [] => []
  | cs :: rest => f cs ++ scanSubdirsWith f rest

/-- `Scanner::scan_recursive_internal` for one directory, with
`fuel = max_depth - depth` (`fuel = 0` is the `depth >= max_depth` early
return).  After the loop, a leftover partial batch is sent with
`is_complete = false`; then each queued subdirectory is scanned in order
at the next depth.  No batch is ever sent with `is_complete = true`. -/
def scanRecursiveGo (show_hidden : Bool) : Nat → List FsNode → List ScanResult
  | 0, _ => []
  | fuel + 1, children =>
      let r := scanRecLoop show_hidden children []
      r.1 ++ (if r.2.1.isEmpty then [] else [⟨r.2.1, 0, false⟩])
        ++ scanSubdirsWith (scanRecursiveGo show_hidden fuel) r.2.2

/-- `Scanner::scan_recursive`: the internal walk started at depth `0`. -/
def scanRecursive (show_hidden : Bool) (max_depth : Nat)
    (children : List FsNode) : List ScanResult :=
  scanRecursiveGo show_hidden max_depth children

/-- A concrete entry for tests and witnesses. -/
def sampleEntry (i : Nat) : DirEntry :=
  ⟨"e" ++ toString i, ["r"], 1, 1, false, false, 420, i⟩

/-! ### `fs/watcher.rs`

The `notify` crate's raw event kinds, with payloads the watcher never
inspects elided to plain constructors.  Paths are opaque strings here (the
watcher never decomposes them).  `Instant` is a `Nat`; `Duration` a `Nat`
of the same unit, so Rust's saturating `Instant::duration_since` is `Nat`
truncated subtraction. -/

inductive RenameMode where
  | toSide
  | fromSide
  | both
  | any
  | other
deriving DecidableEq

inductive ModifyKind where
  | any
  | dataChange
  | metadataChange
  | name : RenameMode → ModifyKind
  | other
deriving DecidableEq

inductive EventKind where
  | any
  | access
  | create
  | modify : ModifyKind → EventKind
  | remove
  | other
deriving DecidableEq

/-- `notify::Event`: a kind plus the affected paths. -/
structure Event where
  kind : EventKind
  paths : List String
deriving DecidableEq

/-- The typed events the watcher emits (`WatchEvent`); `renamed f t` is
`Renamed { from: f, to: t }`. -/
inductive WatchEvent where
  | created : String → WatchEvent
  | modified : String → WatchEvent
  | deleted : String → WatchEvent
  | renamed : String → String → WatchEvent
deriving DecidableEq

/-- The `watched_paths` map (`HashMap<PathBuf, Instant>`), modelled as an
association list with at most one binding per key. -/
def PathTable : Type := List (String × Nat)

instance : DecidableEq PathTable := by
  unfold PathTable
  infer_instance

/-- `HashMap::get`. -/
def tableGet (m : PathTable) (k : String) : Option Nat :=
  match m with
  | [] => none
  | (k2, v) :: rest => if k2 = k then some v else tableGet rest k

/-- `HashMap::insert`: replace the binding for `k`, or add it. -/
def tableInsert (m : PathTable) (k : String) (v : Nat) : PathTable :=
  match m with
  | [] => [(k, v)]
  | (k2, v2) :: rest =>
      if k2 = k then (k, v) :: rest else (k2, v2) :: tableInsert rest k v

/-- `HashMap::remove`. -/
def tableRemove (m : PathTable) (k : String) : PathTable :=
  match m with
  | [] => []
  | (k2, v2) :: rest =>
      if k2 = k then rest else (k2, v2) :: tableRemove rest k

/-- `Watcher::convert_event`, called on each raw notification with the
shared `watched_paths` map: returns the emitted event (if any) and the
updated map.  NOTE (faithful to the source): the match on `event.kind` in
the source lists `EventKind::Modify(_)` before
`EventKind::Modify(ModifyKind::Name(..))`, so the rename arm — the one
that would build `Renamed`/`Deleted`/`Created` from rename notifications —
is unreachable; every `Modify` event, renames included, takes the
`Modified` arm.  The embedding keeps the executed semantics. -/
def convertEvent (now debounce_duration : Nat) (watched_paths : PathTable)
    (event : Event) : Option WatchEvent × PathTable :=
  match event.paths with
  | [] => (none, watched_paths)
  | path :: _ =>
      let dropped : Bool :=
        match tableGet watched_paths path with
        | some last_event => now - last_event < debounce_duration
        | none => false
      if dropped then
        (none, watched_paths)
      else
        let cache := tableInsert watched_paths path now
        match event.kind with
        | .create => (some (.created path), cache)
        | .modify _ => (some (.modified path), cache)
        | .remove => (some (.deleted path), cache)
        | _ => (none, cache)

/-- `Watcher` state: `inner` is `Some` after `start` (modelled as a flag),
and `watched_paths` is the one shared map used both by `watch`/`unwatch`/
`is_watching` and by `convert_event`'s debounce bookkeeping. -/
structure Watcher where
  started : Bool
  watched_paths : PathTable
deriving DecidableEq

/-- `Watcher::watch`: errors when not started, otherwise registers the OS
watch and inserts the path with the current instant into
`watched_paths`. -/
def Watcher.watch (w : Watcher) (now : Nat) (path : String) : Option Watcher :=
  if w.started then
    some { w with watched_paths := tableInsert w.watched_paths path now }
  else
    none

/-- `Watcher::unwatch`. -/
def Watcher.unwatch (w : Watcher) (path : String) : Option Watcher :=
  if w.started then
    some { w with watched_paths := tableRemove w.watched_paths path }
  else
    none

/-- `Watcher::stop`: drops the OS handle and clears the map. -/
def Watcher.stop (_w : Watcher) : Watcher :=
  { started := false, watched_paths := [] }

/-- `Watcher::is_watching`. -/
def Watcher.is_watching (w : Watcher) (path : String) : Bool :=
  (tableGet w.watched_paths path).isSome

/-- The notification callback as it acts on the watcher's shared state:
`convert_event` runs on `watched_paths` and the emitted event (if any) is
sent on the unbounded channel. -/
def processNotification (now debounce_duration : Nat) (w : Watcher)
    (event : Event) : Option WatchEvent × Watcher :=
  let r := convertEvent now debounce_duration w.watched_paths event
  (r.1, { w with watched_paths := r.2 })

/-- The event kinds the `convert_event` match translates into an emitted
`WatchEvent` (create / modify / remove). -/
def EventKind.isChangeKind : EventKind → Bool
  | .create => true
  | .modify _ => true
  | .remove => true
  | _ => false

/-! ### `cache/mod.rs`

The key type is the `u64` inode.  `CachedMetadata` pairs the entry with
the instant it was cached.  The backing `LruCache` comes from
`crate::cache::lru` whose source file is not in the tree; it is modelled
from the spec below.  The `parking_lot::RwLock` around it is modelled by
the trace of lock events each operation performs, returned alongside its
result. -/

structure CachedMetadata where
  entry : DirEntry
  cached_at : Nat
deriving DecidableEq

/-- Modelled from the spec: the repository declares `pub mod lru` and uses
`lru::LruCache`, but `cache/lru.rs` is missing from the sources; the spec
describes it as a "bounded, least-recently-used map from file identity to
cached entry".  `entries` is ordered most-recently-used first; `lruGet`
returns the value and bumps the key to the front; `lruPut` inserts or
replaces at the front and evicts the least-recently-used entry when the
capacity is exceeded; `lruPop` removes a key. -/
structure LruCache where
  cap : Nat
  entries : List (Nat × CachedMetadata)
deriving DecidableEq

def lruLookup (l : List (Nat × CachedMetadata)) (k : Nat) :
    Option CachedMetadata :=
  match l with
  | [] => none
  | (k2, v) :: rest => if k2 = k then some v else lruLookup rest k

def lruEraseKey (l : List (Nat × CachedMetadata)) (k : Nat) :
    List (Nat × CachedMetadata) :=
  match l with
  | [] => []
  | (k2, v) :: rest =>
      if k2 = k then lruEraseKey rest k else (k2, v) :: lruEraseKey rest k

/-- Modelled from the spec: LRU lookup, bumping the key's recency. -/
def LruCache.get (c : LruCache) (k : Nat) : Option CachedMetadata × LruCache :=
  match lruLookup c.entries k with
  | none => (none, c)
  | some v => (some v, { c with entries := (k, v) :: lruEraseKey c.entries k })

/-- Modelled from the spec: LRU insert/replace at most-recent position,
evicting from the least-recent end down to capacity. -/
def LruCache.put (c : LruCache) (k : Nat) (v : CachedMetadata) : LruCache :=
  { c with entries := ((k, v) :: lruEraseKey c.entries k).take c.cap }

/-- Modelled from the spec: remove one key. -/
def LruCache.pop (c : LruCache) (k : Nat) : LruCache :=
  { c with entries := lruEraseKey c.entries k }

/-- The lock events an operation performs on the cache's `RwLock`
(`read()` = shared, `write()` = exclusive, guard drop = release). -/
inductive LockEvent where
  | acquireRead
  | acquireWrite
  | release
deriving DecidableEq

/-- A fresh `std::fs::symlink_metadata` result, as far as the cache reads
it: `ino`, `len`, and `modified` (which can fail, in which case `is_valid`
substitutes `UNIX_EPOCH`, modelled as instant `0`). -/
structure StatMeta where
  ino : Nat
  len : Nat
  modified : Option Nat
deriving DecidableEq

/-- `is_valid`: the cached entry is valid iff its recorded size and
modified time both equal the fresh stat's values. -/
def is_valid (cached : DirEntry) (metadata : StatMeta) : Bool :=
  cached.size == metadata.len && cached.modified == metadata.modified.getD 0

/-- `MetadataCache::get`: one exclusive (`write`) lock for the whole
lookup, since an LRU lookup mutates recency. -/
def cacheGet (c : LruCache) (inode : Nat) :
    Option DirEntry × LruCache × List LockEvent :=
  let r := c.get inode
  ((r.1.map (fun cm => cm.entry)), r.2, [.acquireWrite, .release])

/-- `MetadataCache::insert`: one exclusive lock around the LRU put. -/
def cacheInsert (c : LruCache) (now : Nat) (inode : Nat) (entry : DirEntry) :
    LruCache × List LockEvent :=
  (c.put inode ⟨entry, now⟩, [.acquireWrite, .release])

/-- `MetadataCache::get_or_fetch`, given the outcome of the fresh
lightweight stat (`symlink_metadata`) and the entry a full metadata read
(`DirEntry::from_path`) would produce.  Returns the entry handed back, the
new cache state, whether the full metadata read was performed, and the
lock trace. -/
def getOrFetch (c : LruCache) (now : Nat) (stat : StatMeta)
    (freshEntry : DirEntry) : DirEntry × LruCache × Bool × List LockEvent :=
  let inode := stat.ino
  let g := cacheGet c inode
  match g.1 with
  | some cached =>
      if is_valid cached stat then
        (cached, g.2.1, false, g.2.2)
      else
        let ins := cacheInsert g.2.1 now inode freshEntry
        (freshEntry, ins.1, true, g.2.2 ++ ins.2)
  | none =>
      let ins := cacheInsert g.2.1 now inode freshEntry
      (freshEntry, ins.1, true, g.2.2 ++ ins.2)

/-- `MetadataCache::invalidate_directory`: collect the inodes of all
cached entries whose path is rooted under `dir` while holding the shared
`read` lock, release it, then remove them under a separate exclusive
`write` lock. -/
def invalidateDirectory (c : LruCache) (dir : List String) :
    LruCache × List LockEvent :=
  let to_remove :=
    (c.entries.filter (fun kv => List.isPrefixOf dir kv.2.entry.path)).map
      (fun kv => kv.1)
  let c2 := to_remove.foldl (fun acc i => acc.pop i) c
  (c2, [.acquireRead, .release, .acquireWrite, .release])

/-- An uninterrupted single exclusive hold: the lock trace the claim
asserts for every cache operation. -/
def singleExclusiveHold (tr : List LockEvent) : Prop :=
  tr = [.acquireWrite, .release]

instance (tr : List LockEvent) : Decidable (singleExclusiveHold tr) := by
  unfold singleExclusiveHold
  infer_instance

/-! ### `fs/ops.rs` -/

inductive ConflictResolution where
  | skip
  | overwrite
  | rename
deriving DecidableEq

/-- The error variants of `crate::Error` that the file-operation paths
under study surface. -/
inductive OpsError where
  | invalidPath
  | cancelled
  | invalidOperation
deriving DecidableEq

/-- The candidate sibling name `find_unique_name` probes for counter `n`:
`"<stem> (<n>).<ext>"`, without the dot when the extension is empty. -/
def formatCandidate (stem ext : String) (n : Nat) : String :=
  if ext.isEmpty then
    stem ++ " (" ++ toString n ++ ")"
  else
    stem ++ " (" ++ toString n ++ ")." ++ ext

/-- The probe loop of `FileOperations::find_unique_name`: `exists?` is
`Path::exists` restricted to the destination's siblings; `counter` starts
at 1 and the loop errors once `counter > 9999`, i.e. after `fuel = 9999`
failed probes. -/
def findUniqueNameFrom (exists? : String → Bool) (stem ext : String) :
    Nat → Nat → Except OpsError String
  | _, 0 => .error .invalidOperation
  | counter, fuel + 1 =>
      let new_name := formatCandidate stem ext counter
      if exists? new_name then
        findUniqueNameFrom exists? stem ext (counter + 1) fuel
      else
        .ok new_name

/-- `FileOperations::find_unique_name` after extracting parent, stem and
extension from the destination path. -/
def findUniqueName (exists? : String → Bool) (stem ext : String) :
    Except OpsError String :=
  findUniqueNameFrom exists? stem ext 1 9999

/-- Whether `CancellationToken::is_cancelled` reads `true` at the `check`-th
poll of the copy loop: the cooperative signal is set from check index `k`
onward (`none` = never set during the run). -/
def cancelledAt (cancelAt : Option Nat) (check : Nat) : Bool :=
  match cancelAt with
  | some k => k ≤ check
  | none => false

/-- The streaming loop of `FileOperations::copy_file_with_progress` for a
regular file: `chunks` are the byte counts the successive 1 MiB buffer
reads return (each positive; the final read returning 0 ends the loop).
Cancellation is polled before every read; on trip the partially written
destination is best-effort removed (`let _ = fs::remove_file`) and the
loop returns `Cancelled`.  Returns the outcome, the destination contents
(`none` = destination file absent/removed, `some ws` = the chunks written),
and the number of bytes that had been written to the destination before it
was removed or completed. -/
def copyFileGo (cancelAt : Option Nat) :
    List Nat → Nat → List Nat → Except OpsError Unit × Option (List Nat) × Nat
  | chunks, check, written =>
      if cancelledAt cancelAt check then
        (.error .cancelled, none, written.sum)
      else
        match chunks with
        | [] => (.ok (), some written, written.sum)
        | c :: rest => copyFileGo cancelAt rest (check + 1) (written ++ [c])

/-- A single-file copy: `File::create` makes an (empty) destination before
the first cancellation check, then the loop streams the chunks. -/
def copyFile (cancelAt : Option Nat) (chunks : List Nat) :
    Except OpsError Unit × Option (List Nat) × Nat :=
  copyFileGo cancelAt chunks 0 []

/-- Observable filesystem/channel actions of a move, in order. -/
inductive FsAction where
  | rename : String → String → FsAction
  | removeFile : String → FsAction
  | createDest : String → FsAction
  | copyProgress : String → FsAction
deriving DecidableEq

def FsAction.isCopyProgress : FsAction → Bool
  | .copyProgress _ => true
  | _ => false

def FsAction.isRename : FsAction → Bool
  | .rename _ _ => true
  | _ => false

/-- The action trace of `copy_file_with_progress` for a regular file that
runs to completion: create the destination, then one progress send per
buffer chunk. -/
def copyFileActions (src dst : String) (chunks : List Nat) : List FsAction :=
  .createDest dst :: chunks.map (fun _ => .copyProgress src)

/-- The action trace of `copy_files` for a single regular-file source
(the shape `move_files` reuses for its cross-filesystem fallback):
conflict policy applied when the destination name exists, then the
streaming copy. -/
def copySingleTrace (destExists : Bool) (conflict : ConflictResolution)
    (source dest renamedDest : String) (chunks : List Nat) : List FsAction :=
  if destExists then
    match conflict with
    | .skip => []
    | .overwrite => copyFileActions source dest chunks
    | .rename => copyFileActions source renamedDest chunks
  else
    copyFileActions source dest chunks

/-- The per-source body of `FileOperations::move_files` (uncancelled, with
a valid file name): `sameFs` is `is_same_filesystem(source, dest_dir)`
(device-identity comparison), `destExists` is `dest.exists()`,
`renamedDest` the name `find_unique_name` would return.  Same filesystem:
conflict policy then an atomic rename (Overwrite first removes the
destination; Skip does nothing).  Different filesystems: `copy_files` on
the single source, then `fs::remove_file(source)` — unconditionally, even
when the copy skipped the source. -/
def moveOne (sameFs destExists : Bool) (conflict : ConflictResolution)
    (source dest renamedDest : String) (chunks : List Nat) : List FsAction :=
  if sameFs then
    if destExists then
      match conflict with
      | .skip => []
      | .overwrite => [.removeFile dest, .rename source dest]
      | .rename => [.rename source renamedDest]
    else
      [.rename source dest]
  else
    copySingleTrace destExists conflict source dest renamedDest chunks
      ++ [.removeFile source]

/-! ### Scanner lemmas -/

/-- A batch produced by `scanSubdirsWith` comes from one of the
subdirectory lists. -/
theorem scanSubdirsWith_mem (f : List FsNode → List ScanResult)
    (ls : List (List FsNode)) (b : ScanResult)
    (hb : b ∈ scanSubdirsWith f ls) : ∃ cs ∈ ls, b ∈ f cs := by
  induction ls with
  | nil => simp [scanSubdirsWith] at hb
  | cons cs rest ih =>
      simp only [scanSubdirsWith, List.mem_append] at hb
      rcases hb with hb | hb
      · exact ⟨cs, by simp, hb⟩
      · rcases ih hb with ⟨cs2, h1, h2⟩
        exact ⟨cs2, by simp [h1], h2⟩

/-- Every full batch flushed by the recursive read loop carries
`total_count = 0`. -/
theorem scanRecLoop_total_zero (sh : Bool) :
    ∀ (ns : List FsNode) (buf : List DirEntry) (b : ScanResult),
      b ∈ (scanRecLoop sh ns buf).1 → b.total_count = 0 := by
  intro ns
  induction ns with
  | nil => intro buf b hb; simp [scanRecLoop] at hb
  | cons n rest ih =>
      intro buf b hb
      cases n with
      | err => exact ih buf b hb
      | ok e cs =>
          simp only [scanRecLoop] at hb
          split at hb
          · exact ih buf b hb
          · split at hb
            · rcases List.mem_cons.mp hb with hb | hb
              · simp [hb]
              · exact ih [] b hb
            · exact ih _ b hb

/-- Every batch sent by the recursive walk carries `total_count = 0`. -/
theorem scanRecursiveGo_total_zero (sh : Bool) :
    ∀ (fuel : Nat) (children : List FsNode) (b : ScanResult),
      b ∈ scanRecursiveGo sh fuel children → b.total_count = 0 := by
  intro fuel
  induction fuel with
  | zero => intro children b hb; simp [scanRecursiveGo] at hb
  | succ fuel ih =>
      intro children b hb
      simp only [scanRecursiveGo, List.mem_append] at hb
      rcases hb with (hb | hb) | hb
      · exact scanRecLoop_total_zero sh children [] b hb
      · split at hb
        · simp at hb
        · simp at hb; simp [hb]
      · rcases scanSubdirsWith_mem _ _ _ hb with ⟨cs, _, h2⟩
        exact ih cs b h2

/-- In a shallow scan, the `k`-th batch's `total_count` is the running
number of accepted entries: starting the loop with `total = F + buf.length`
(entries already flushed plus the pending buffer), each sent batch's
`total_count` equals `F` plus all batch sizes sent up to and including
it. -/
theorem scanDirectoryLoop_running_total (sh : Bool) :
    ∀ (ns : List (Option DirEntry)) (buf : List DirEntry) (total F k : Nat)
      (b : ScanResult) (ht : total = F + buf.length)
      (hb : (scanDirectoryLoop sh ns buf total)[k]? = some b),
      b.total_count
        = F + (((scanDirectoryLoop sh ns buf total).take (k + 1)).map
            (fun x => x.entries.length)).sum := by
  intro ns
  induction ns with
  | nil =>
      intro buf total F k b ht hb
      cases hc : (!buf.isEmpty || (total == 0)) with
      | true =>
          simp only [scanDirectoryLoop, hc, if_true] at hb ⊢
          cases k with
          | zero =>
              simp only [List.getElem?_cons_zero, Option.some_inj] at hb
              subst hb
              simpa using ht
          | succ j => simp at hb
      | false =>
          simp only [scanDirectoryLoop, hc] at hb
          simp at hb
  | cons n rest ih =>
      intro buf total F k b ht hb
      cases n with
      | none => exact ih buf total F k b ht hb
      | some e =>
          cases hh : (!sh && e.is_hidden) with
          | true =>
              simp only [scanDirectoryLoop, hh, if_true] at hb ⊢
              exact ih buf total F k b ht hb
          | false =>
              by_cases hfl : BATCH_SIZE ≤ (buf ++ [e]).length
              · simp only [scanDirectoryLoop, hh, Bool.false_eq_true, if_false, hfl,
                  if_true] at hb ⊢
                cases k with
                | zero =>
                    simp only [List.getElem?_cons_zero, Option.some_inj] at hb
                    subst hb
                    simp only [List.take_succ_cons, List.take_zero, List.map_cons,
                      List.map_nil, List.sum_cons, List.sum_nil, List.length_append,
                      List.length_cons, List.length_nil]
                    omega
                | succ j =>
                    simp only [List.getElem?_cons_succ] at hb
                    have hIH := ih [] (total + 1) (total + 1) j b (by simp) hb
                    rw [hIH]
                    simp only [List.take_succ_cons, List.map_cons, List.sum_cons,
                      List.length_append, List.length_cons, List.length_nil]
                    generalize (List.map (fun x => x.entries.length)
                      (List.take (j + 1) (scanDirectoryLoop sh rest [] (total + 1)))).sum = S
                    omega
              · simp only [scanDirectoryLoop, hh, Bool.false_eq_true, if_false, hfl] at hb ⊢
                exact ih (buf ++ [e]) (total + 1) F k b
                  (by simp only [List.length_append, List.length_cons, List.length_nil]; omega) hb

/-! ### Claim theorems

Each claim of the specification is settled by one theorem below (with a
closed witness instance when the theorem carries hypotheses, and a closed
counterexample where the claim fails on the code). -/

/-- Looking up a just-inserted key in the watcher's path table returns the
inserted instant. -/
theorem tableGet_insert_self (m : PathTable) (k : String) (v : Nat) :
    tableGet (tableInsert m k v) k = some v := by
  induction m with
  | nil => simp [tableInsert, tableGet]
  | cons kv rest ih =>
      by_cases h : kv.1 = k
      · simp [tableInsert, tableGet, h]
      · simp [tableInsert, tableGet, h, ih]

/-- Claim C2 (refuted, code bug): the claim says a raw rename notification
carrying both paths yields a single `Renamed{from, to}` event.  On the code,
the notification `Modify(Name(Both))` with paths `["a", "b"]` is emitted as
`Modified "a"`: the source's `EventKind::Modify(_)` match arm precedes the
rename arm, so the arm that would build `Renamed` is unreachable. -/
theorem c2_rename_both_emits_modified :
    convertEvent 10 50 ([] : PathTable) ⟨.modify (.name .both), ["a", "b"]⟩
      = (some (.modified "a"), [("a", 10)]) := by
  decide

/-- Claim C5 (confirmed): debounce behaviour of `convert_event`.  For a
path with no table entry, a first change notification is emitted and the
table is updated to its instant; a second notification for the same path
within the debounce window is dropped with the table unchanged (so two
notifications within the window emit exactly one event), while one
separated by at least the window is emitted and updates the table (so two
events more than a window apart emit two).  In general a notification is
dropped exactly when the table holds a more-recent-than-window entry for
its primary path, and otherwise the table is updated and a translated
event is emitted. -/
theorem c5_debounce (win t1 t2 : Nat) (st : PathTable) (p : String)
    (k1 k2 : EventKind)
    (h0 : tableGet st p = none)
    (hk1 : k1.isChangeKind = true) (hk2 : k2.isChangeKind = true) :
    ((convertEvent t1 win st ⟨k1, [p]⟩).1.isSome = true)
    ∧ ((convertEvent t1 win st ⟨k1, [p]⟩).2 = tableInsert st p t1)
    ∧ (t2 - t1 < win →
        convertEvent t2 win (tableInsert st p t1) ⟨k2, [p]⟩
          = (none, tableInsert st p t1))
    ∧ (¬ t2 - t1 < win →
        ((convertEvent t2 win (tableInsert st p t1) ⟨k2, [p]⟩).1.isSome = true
          ∧ (convertEvent t2 win (tableInsert st p t1) ⟨k2, [p]⟩).2
              = tableInsert (tableInsert st p t1) p t2))
    ∧ (∀ (m : PathTable) (now last : Nat) (e : Event) (q : String)
          (rest : List String),
        e.paths = q :: rest → tableGet m q = some last → now - last < win →
        convertEvent now win m e = (none, m))
    ∧ (∀ (m : PathTable) (now : Nat) (q : String) (rest : List String),
        (∀ last, tableGet m q = some last → ¬ now - last < win) →
        (convertEvent now win m ⟨k2, q :: rest⟩).2 = tableInsert m q now
          ∧ (convertEvent now win m ⟨k2, q :: rest⟩).1.isSome = true) := by
  refine ⟨?_, ?_, ?_, ?_, ?_, ?_⟩
  · cases k1 <;> simp_all [convertEvent, EventKind.isChangeKind]
  · cases k1 <;> simp_all [convertEvent, EventKind.isChangeKind]
  · intro hlt
    simp [convertEvent, tableGet_insert_self, hlt]
  · intro hge
    cases k2 <;> simp_all [convertEvent, EventKind.isChangeKind,
      tableGet_insert_self] <;> (rw [if_neg (by omega)]; simp)
  · intro m now last e q rest hpaths hget hlt
    cases e with
    | mk kk pp =>
        cases hpaths
        simp [convertEvent, hget, hlt]
  · intro m now q rest hnd
    cases hget : tableGet m q with
    | none => cases k2 <;> simp_all [convertEvent, EventKind.isChangeKind]
    | some last =>
        have := hnd last hget
        cases k2 <;> simp_all [convertEvent, EventKind.isChangeKind] <;>
          (rw [if_neg (by omega)]; simp)

/-- Witness for C5: a concrete run with window 50 — the first notification
at instant 10 is emitted, a second at 30 is dropped, one at 100 is
emitted. -/
theorem c5_debounce_witness :
    tableGet ([] : PathTable) "a" = none
    ∧ EventKind.isChangeKind .create = true
    ∧ ((convertEvent 10 50 ([] : PathTable) ⟨.create, ["a"]⟩).1.isSome = true)
    ∧ (convertEvent 30 50 (tableInsert ([] : PathTable) "a" 10) ⟨.create, ["a"]⟩
        = (none, tableInsert ([] : PathTable) "a" 10))
    ∧ ((convertEvent 100 50 (tableInsert ([] : PathTable) "a" 10)
          ⟨.create, ["a"]⟩).1.isSome = true) := by
  have h := c5_debounce 50 10 30 ([] : PathTable) "a" .create .create rfl rfl rfl
  have h2 := c5_debounce 50 10 100 ([] : PathTable) "a" .create .create rfl rfl rfl
  exact ⟨rfl, rfl, h.1, h.2.2.1 (by decide), (h2.2.2.2.1 (by decide)).1⟩

/-- Claim C9 counterexample: on a started watcher with nothing watched,
processing one change notification for path `"f"` makes `is_watching "f"`
true — membership in the set `is_watching` reports changed without any
call to `watch`/`unwatch`/`stop`, because `convert_event` writes its
debounce bookkeeping into the same `watched_paths` map. -/
theorem c9_counterexample :
    Watcher.is_watching ⟨true, []⟩ "f" = false
    ∧ (processNotification 5 50 ⟨true, []⟩ ⟨.create, ["f"]⟩).2
        = ⟨true, [("f", 5)]⟩
    ∧ Watcher.is_watching
        (processNotification 5 50 ⟨true, []⟩ ⟨.create, ["f"]⟩).2 "f" = true := by
  refine ⟨rfl, rfl, rfl⟩

/-- Claim C9 as amended (proved): the watcher keeps a single map,
`watched_paths`, serving as both the watched set and the debounce table:
`watch` inserts the path with the current instant into the map consulted
by `convert_event`'s debounce check (so watching a path seeds the debounce
window — a notification for it within the window is dropped), processing a
notification inserts the event's path into the map consulted by
`is_watching`, and `stop` clears the shared map. -/
theorem c9_single_shared_table (w : Watcher) (p q : String) (t now win : Nat)
    (hs : w.started = true) (hlt : now - t < win)
    (hq : tableGet w.watched_paths q = none) (k : EventKind) :
    w.watch t p
        = some { w with watched_paths := tableInsert w.watched_paths p t }
    ∧ (convertEvent now win (tableInsert w.watched_paths p t) ⟨k, [p]⟩).1 = none
    ∧ (processNotification now win w ⟨k, [q]⟩).2.watched_paths
        = tableInsert w.watched_paths q now
    ∧ (processNotification now win w ⟨k, [q]⟩).2.is_watching q = true
    ∧ (w.stop).watched_paths = [] := by
  refine ⟨by simp [Watcher.watch, hs], ?_, ?_, ?_, rfl⟩
  · simp [convertEvent, tableGet_insert_self, hlt]
  · simp only [processNotification, convertEvent, hq]
    cases k <;> simp
  · simp only [processNotification, convertEvent, hq, Watcher.is_watching]
    cases k <;> simp [tableGet_insert_self]

/-- Witness for the amended C9 at a concrete started watcher. -/
theorem c9_single_shared_table_witness :
    (⟨true, []⟩ : Watcher).started = true
    ∧ (5 : Nat) - 2 < 50
    ∧ tableGet (⟨true, []⟩ : Watcher).watched_paths "g" = none
    ∧ (⟨true, []⟩ : Watcher).watch 2 "f"
        = some ⟨true, [("f", 2)]⟩
    ∧ (convertEvent 5 50 (tableInsert ([] : PathTable) "f" 2) ⟨.create, ["f"]⟩).1
        = none
    ∧ (processNotification 5 50 ⟨true, []⟩ ⟨.create, ["g"]⟩).2.is_watching "g"
        = true := by
  have h := c9_single_shared_table ⟨true, []⟩ "f" "g" 2 5 50 rfl (by decide)
    rfl .create
  exact ⟨rfl, by decide, rfl, h.1, h.2.1, h.2.2.2.1⟩

/-- Claim C3 counterexample: `invalidate_directory` on a concrete cache
performs `read`-lock, release, `write`-lock, release — not one exclusive
lock held for the whole operation; the lock is released between the
traversal and the removals. -/
theorem c3_counterexample :
    (invalidateDirectory ⟨10, [(1, ⟨sampleEntry 1, 0⟩)]⟩ ["r"]).2
        = [.acquireRead, .release, .acquireWrite, .release]
    ∧ ¬ singleExclusiveHold
        (invalidateDirectory ⟨10, [(1, ⟨sampleEntry 1, 0⟩)]⟩ ["r"]).2 := by
  constructor
  · rfl
  · decide

/-- Claim C3 as amended (proved): lookups (`get`) and `insert` each run
under a single exclusive write lock held for the whole operation, and a
validated `get_or_fetch` hit performs exactly that one exclusive hold; but
`get_or_fetch` on a miss takes the exclusive lock twice (lookup, then
insert), and `invalidate_directory` scans under a shared read lock,
releases it, and removes under a second, separate exclusive lock. -/
theorem c3_lock_traces (c : LruCache) (now inode : Nat) (stat : StatMeta)
    (fresh e : DirEntry) (dir : List String) :
    singleExclusiveHold (cacheGet c inode).2.2
    ∧ singleExclusiveHold (cacheInsert c now inode e).2
    ∧ (invalidateDirectory c dir).2
        = [.acquireRead, .release, .acquireWrite, .release]
    ∧ ((getOrFetch c now stat fresh).2.2.1 = false →
        singleExclusiveHold (getOrFetch c now stat fresh).2.2.2)
    ∧ ((getOrFetch c now stat fresh).2.2.1 = true →
        (getOrFetch c now stat fresh).2.2.2
          = [.acquireWrite, .release, .acquireWrite, .release]) := by
  refine ⟨rfl, rfl, rfl, ?_, ?_⟩ <;>
    · intro h
      simp only [getOrFetch, cacheGet, cacheInsert] at h ⊢
      cases hg : (c.get stat.ino).1 with
      | none => simp [hg] at h ⊢
      | some cm =>
          by_cases hv : is_valid cm.entry stat
          · simp [hg, hv, singleExclusiveHold] at h ⊢
          · simp [hg, hv] at h ⊢

/-- Witness for the amended C3: a lookup's single exclusive hold, and the
double hold of a `get_or_fetch` miss on an empty cache. -/
theorem c3_lock_traces_witness :
    singleExclusiveHold (cacheGet ⟨10, []⟩ 1).2.2
    ∧ (getOrFetch ⟨10, []⟩ 7 ⟨1, 5, some 3⟩ (sampleEntry 1)).2.2.1 = true
    ∧ (getOrFetch ⟨10, []⟩ 7 ⟨1, 5, some 3⟩ (sampleEntry 1)).2.2.2
        = [.acquireWrite, .release, .acquireWrite, .release] := by
  have h := c3_lock_traces ⟨10, []⟩ 7 1 ⟨1, 5, some 3⟩ (sampleEntry 1)
    (sampleEntry 1) ["r"]
  exact ⟨h.1, by decide, h.2.2.2.2 (by decide)⟩

/-- Claim C4 (confirmed): `get_or_fetch` resolves the identity from the
fresh lightweight stat; a cached entry under that identity is returned as
a hit — with no full metadata read — exactly when its recorded size and
modified time both equal the fresh stat's values; any inequality, or no
cached entry, is a miss that performs the full read, inserts/replaces the
entry (on the recency-bumped cache) and returns the fresh entry. -/
theorem c4_get_or_fetch (c : LruCache) (now : Nat) (stat : StatMeta)
    (fresh : DirEntry) (t : Nat) (hm : stat.modified = some t) :
    (∀ cached bumped, c.get stat.ino = (some cached, bumped) →
      ((cached.entry.size = stat.len ∧ cached.entry.modified = t) →
          getOrFetch c now stat fresh
            = (cached.entry, bumped, false, [.acquireWrite, .release]))
      ∧ (¬ (cached.entry.size = stat.len ∧ cached.entry.modified = t) →
          getOrFetch c now stat fresh
            = (fresh, bumped.put stat.ino ⟨fresh, now⟩, true,
                [.acquireWrite, .release, .acquireWrite, .release])))
    ∧ ((c.get stat.ino).1 = none →
        getOrFetch c now stat fresh
          = (fresh, (c.get stat.ino).2.put stat.ino ⟨fresh, now⟩, true,
              [.acquireWrite, .release, .acquireWrite, .release])) := by
  constructor
  · intro cached bumped hg
    have hvv : is_valid cached.entry stat
        = (decide (cached.entry.size = stat.len ∧ cached.entry.modified = t)) := by
      simp [is_valid, hm, Bool.and_eq_true, decide_eq_true_eq]
      rfl
    constructor
    · intro heq
      simp only [getOrFetch, cacheGet, cacheInsert, hg, Option.map]
      rw [hvv]
      simp [heq]
    · intro hne
      simp only [getOrFetch, cacheGet, cacheInsert, hg, Option.map]
      rw [hvv]
      simp [hne]
  · intro hg
    simp [getOrFetch, cacheGet, cacheInsert, hg]

/-- Witness for C4: a concrete validated hit — same size 5 and modified
time 7 as the fresh stat — returns the cached entry with no full read. -/
theorem c4_get_or_fetch_witness :
    getOrFetch ⟨10, [(1, ⟨⟨"c", ["r"], 5, 7, false, false, 420, 1⟩, 0⟩)]⟩ 9
        ⟨1, 5, some 7⟩ (sampleEntry 2)
      = (⟨"c", ["r"], 5, 7, false, false, 420, 1⟩,
          ⟨10, [(1, ⟨⟨"c", ["r"], 5, 7, false, false, 420, 1⟩, 0⟩)]⟩,
          false, [.acquireWrite, .release]) := by
  have h := c4_get_or_fetch
    ⟨10, [(1, ⟨⟨"c", ["r"], 5, 7, false, false, 420, 1⟩, 0⟩)]⟩ 9
    ⟨1, 5, some 7⟩ (sampleEntry 2) 7 rfl
  exact (h.1 ⟨⟨"c", ["r"], 5, 7, false, false, 420, 1⟩, 0⟩
    ⟨10, [(1, ⟨⟨"c", ["r"], 5, 7, false, false, 420, 1⟩, 0⟩)]⟩ (by decide)).1
    ⟨rfl, rfl⟩

/-- When every candidate in the probed range exists, the probe loop runs
out and errors. -/
theorem findUniqueNameFrom_all_taken (ex : String → Bool) (stem ext : String) :
    ∀ (fuel counter : Nat),
      (∀ i, counter ≤ i → i < counter + fuel
        → ex (formatCandidate stem ext i) = true) →
      findUniqueNameFrom ex stem ext counter fuel = .error .invalidOperation := by
  intro fuel
  induction fuel with
  | zero => intro counter _; rfl
  | succ fuel ih =>
      intro counter hall
      have h1 : ex (formatCandidate stem ext counter) = true :=
        hall counter (le_refl _) (by omega)
      simp only [findUniqueNameFrom, h1, if_true]
      exact ih (counter + 1) (fun i h1i h2i => hall i (by omega) (by omega))

/-- The probe loop returns the first in-range candidate that does not
exist. -/
theorem findUniqueNameFrom_first_free (ex : String → Bool) (stem ext : String) :
    ∀ (fuel counter k : Nat), counter ≤ k → k < counter + fuel →
      ex (formatCandidate stem ext k) = false →
      (∀ m, counter ≤ m → m < k → ex (formatCandidate stem ext m) = true) →
      findUniqueNameFrom ex stem ext counter fuel
        = .ok (formatCandidate stem ext k) := by
  intro fuel
  induction fuel with
  | zero => intro counter k h1 h2 _ _; omega
  | succ fuel ih =>
      intro counter k h1 h2 hfree hprev
      by_cases hck : counter = k
      · subst hck
        simp [findUniqueNameFrom, hfree]
      · have hc : ex (formatCandidate stem ext counter) = true :=
          hprev counter (le_refl _) (by omega)
        simp only [findUniqueNameFrom, hc, if_true]
        exact ih (counter + 1) k (by omega) (by omega) hfree
          (fun m hm1 hm2 => hprev m (by omega) hm2)

/-- Claim C6 (confirmed): under the Rename conflict policy,
`find_unique_name` probes candidates `"<stem> (<n>).<ext>"` for `n`
increasing from 1, returns the first candidate that does not exist, and
fails with the invalid-operation error when all 9999 probed candidates
exist. -/
theorem c6_find_unique_name (ex : String → Bool) (stem ext : String) :
    ((∀ n, 1 ≤ n → n ≤ 9999 → ex (formatCandidate stem ext n) = true) →
        findUniqueName ex stem ext = .error .invalidOperation)
    ∧ (∀ k, 1 ≤ k → k ≤ 9999 → ex (formatCandidate stem ext k) = false →
        (∀ m, 1 ≤ m → m < k → ex (formatCandidate stem ext m) = true) →
        findUniqueName ex stem ext = .ok (formatCandidate stem ext k)) := by
  constructor
  · intro hall
    exact findUniqueNameFrom_all_taken ex stem ext 9999 1
      (fun i h1 h2 => hall i h1 (by omega))
  · intro k h1 h2 hfree hprev
    exact findUniqueNameFrom_first_free ex stem ext 9999 1 k h1 (by omega)
      hfree hprev

/-- Witness for C6: with only `"a (1).txt"` taken, the probe returns
`"a (2).txt"`. -/
theorem c6_find_unique_name_witness :
    (fun s => s == "a (1).txt") (formatCandidate "a" "txt" 2) = false
    ∧ findUniqueName (fun s => s == "a (1).txt") "a" "txt"
        = .ok (formatCandidate "a" "txt" 2) := by
  constructor
  · decide
  · exact (c6_find_unique_name (fun s => s == "a (1).txt") "a" "txt").2 2
      (by decide) (by decide) (by decide)
      (by
        intro m hm1 hm2
        have hm : m = 1 := by omega
        subst hm
        decide)

/-- If the cancellation signal trips at check `k`, the copy loop stops
there with the first `k` chunks written and then removed. -/
theorem copyFileGo_cancelled (k : Nat) :
    ∀ (chunks : List Nat) (check : Nat) (written : List Nat),
      check ≤ k → k - check ≤ chunks.length →
      copyFileGo (some k) chunks check written
        = (.error .cancelled, none, (written ++ chunks.take (k - check)).sum) := by
  intro chunks
  induction chunks with
  | nil =>
      intro check written h1 h2
      simp only [List.length_nil, Nat.le_zero] at h2
      have hk : k = check := by omega
      subst hk
      simp [copyFileGo, cancelledAt]
  | cons c rest ih =>
      intro check written h1 h2
      by_cases hkc : k ≤ check
      · have hk : k = check := by omega
        subst hk
        simp [copyFileGo, cancelledAt]
      · have hnc : cancelledAt (some k) check = false := by
          simp [cancelledAt]; omega
        simp only [copyFileGo, hnc, Bool.false_eq_true, if_false]
        have := ih (check + 1) (written ++ [c]) (by omega)
          (by simp at h2 ⊢; omega)
        rw [this]
        have htake : (c :: rest).take (k - check)
            = c :: rest.take (k - (check + 1)) := by
          have hpos : k - check = (k - (check + 1)) + 1 := by omega
          rw [hpos]
          simp
        rw [htake, List.append_assoc]
        simp

/-- With the signal never set, the copy loop writes every chunk and
completes. -/
theorem copyFileGo_uncancelled :
    ∀ (chunks : List Nat) (check : Nat) (written : List Nat),
      copyFileGo none chunks check written
        = (.ok (), some (written ++ chunks), (written ++ chunks).sum) := by
  intro chunks
  induction chunks with
  | nil => intro check written; simp [copyFileGo, cancelledAt]
  | cons c rest ih =>
      intro check written
      simp only [copyFileGo, cancelledAt, Bool.false_eq_true, if_false]
      rw [ih (check + 1) (written ++ [c])]
      simp

/-- Claim C7 (confirmed): cancellation is polled before every buffer read
of a single-file copy; a signal set at any check index `k` up to the number
of reads makes the copy return the distinct cancelled outcome with the
partial destination removed, having written exactly the first `k` chunks
before removal — in particular cancellation before any work (`k = 0`)
writes zero bytes — while an uncancelled copy completes with the full
contents in place. -/
theorem c7_copy_cancellation (chunks : List Nat) (k : Nat)
    (hk : k ≤ chunks.length) :
    copyFile (some k) chunks = (.error .cancelled, none, (chunks.take k).sum)
    ∧ copyFile (some 0) chunks = (.error .cancelled, none, 0)
    ∧ copyFile none chunks = (.ok (), some chunks, chunks.sum) := by
  refine ⟨?_, ?_, ?_⟩
  · have := copyFileGo_cancelled k chunks 0 [] (by omega) (by omega)
    simpa [copyFile] using this
  · have := copyFileGo_cancelled 0 chunks 0 [] (by omega) (by omega)
    simpa [copyFile] using this
  · have := copyFileGo_uncancelled chunks 0 []
    simpa [copyFile] using this

/-- Witness for C7 on a two-chunk file: cancelled after one read, before
any read, and never. -/
theorem c7_copy_cancellation_witness :
    (1 : Nat) ≤ ([5, 7] : List Nat).length
    ∧ copyFile (some 1) [5, 7] = (.error .cancelled, none, 5)
    ∧ copyFile (some 0) [5, 7] = (.error .cancelled, none, 0)
    ∧ copyFile none [5, 7] = (.ok (), some [5, 7], 12) := by
  have h := c7_copy_cancellation [5, 7] 1 (by decide)
  exact ⟨by decide, h.1, h.2.1, h.2.2⟩

/-- Progress sends per chunk counted. -/
theorem countP_copyProgress_replicate (s : String) (n : Nat) :
    (List.replicate n (FsAction.copyProgress s)).countP
      FsAction.isCopyProgress = n := by
  induction n with
  | zero => rfl
  | succ n ih =>
      simp [List.replicate_succ, List.countP_cons, ih, FsAction.isCopyProgress]

/-- The last element of a trace ending in a concatenated singleton. -/
theorem getLast?_cons_concat (a x : FsAction) (l : List FsAction) :
    (a :: (l ++ [x])).getLast? = some x := by
  rw [← List.cons_append, List.getLast?_concat]

/-- Claim C8 (refuted at one input, code bug): a same-filesystem move is an
atomic rename after the conflict policy with no copy progress, and a
cross-filesystem move of a source that is actually copied is a copy
progress stream followed by removal of the source with no rename — but at
the failing input (different filesystems, Skip policy, destination name
exists) the code's `copy_files` call skips the source and `move_files`
still removes it unconditionally: the trace is just `removeFile source`,
with no copy, so the source is deleted without having been copied. -/
theorem c8_move_semantics :
    moveOne false true .skip "s" "d" "r" [5] = [.removeFile "s"]
    ∧ (∀ (dE : Bool) (conflict : ConflictResolution) (s d r : String)
          (chunks : List Nat),
        (moveOne true dE conflict s d r chunks).countP
          FsAction.isCopyProgress = 0)
    ∧ (∀ (dE : Bool) (conflict : ConflictResolution) (s d r : String)
          (chunks : List Nat), dE = false ∨ conflict ≠ .skip →
        (moveOne true dE conflict s d r chunks).countP FsAction.isRename = 1)
    ∧ (∀ (dE : Bool) (conflict : ConflictResolution) (s d r : String)
          (chunks : List Nat), dE = false ∨ conflict ≠ .skip →
        (moveOne false dE conflict s d r chunks).countP
            FsAction.isCopyProgress = chunks.length
          ∧ (moveOne false dE conflict s d r chunks).getLast?
              = some (.removeFile s)
          ∧ (moveOne false dE conflict s d r chunks).countP
              FsAction.isRename = 0) := by
  refine ⟨rfl, ?_, ?_, ?_⟩
  · intro dE conflict s d r chunks
    cases dE <;> cases conflict <;>
      simp [moveOne, List.countP_cons, FsAction.isCopyProgress,
        FsAction.isRename]
  · intro dE conflict s d r chunks h
    cases dE <;> cases conflict <;>
      simp_all [moveOne, List.countP_cons, FsAction.isCopyProgress,
        FsAction.isRename]
  · intro dE conflict s d r chunks h
    cases dE <;> cases conflict <;>
      simp_all [moveOne, copySingleTrace, copyFileActions, List.countP_append,
        List.countP_cons, countP_copyProgress_replicate,
        FsAction.isCopyProgress, FsAction.isRename, getLast?_cons_concat]

/-- Witness for C8's universally quantified parts at a concrete
Overwrite move. -/
theorem c8_move_semantics_witness :
    ((false = false ∨ ConflictResolution.overwrite ≠ .skip) = True)
    ∧ (moveOne true false .overwrite "s" "d" "r" [5]).countP
        FsAction.isCopyProgress = 0
    ∧ (moveOne true false .overwrite "s" "d" "r" [5]).countP
        FsAction.isRename = 1
    ∧ (moveOne false false .overwrite "s" "d" "r" [5]).countP
        FsAction.isCopyProgress = 1
    ∧ (moveOne false false .overwrite "s" "d" "r" [5]).getLast?
        = some (.removeFile "s") := by
  have h := c8_move_semantics
  have h4 := h.2.2.2 false .overwrite "s" "d" "r" [5] (Or.inl rfl)
  exact ⟨by simp, h.2.1 false .overwrite "s" "d" "r" [5],
    h.2.2.1 false .overwrite "s" "d" "r" [5] (Or.inl rfl), h4.1, h4.2.1⟩

set_option maxRecDepth 8000

/-- Claim C1 (refuted, code bug): the claim says every non-error scan
delivers exactly one batch flagged complete.  On the code, a shallow scan
of a directory with exactly 100 visible entries sends its one full batch
with `is_complete = false` and then nothing — the final send is guarded by
`!entries.is_empty() || total_count == 0`, both false here — and a
recursive scan never sends any complete-flagged batch at all. -/
theorem c1_scan_completion_bug :
    (scanDirectory true ((List.range 100).map
        (fun i => some (sampleEntry i)))).countP (fun b => b.is_complete) = 0
    ∧ (scanRecursive true 32 [FsNode.ok (sampleEntry 0) []]).countP
        (fun b => b.is_complete) = 0
    ∧ (scanDirectory true ((List.range 100).map
        (fun i => some (sampleEntry i)))).length = 1 := by
  refine ⟨by decide, by decide, by decide⟩

/-- Claim C10 (confirmed): every batch emitted by a recursive scan reports
`total_count = 0`, while in a shallow scan each batch's `total_count` is
the running number of entries accepted so far — the sum of the sizes of
the batches sent up to and including it. -/
theorem c10_totals (sh : Bool) :
    (∀ (max_depth : Nat) (children : List FsNode) (b : ScanResult),
        b ∈ scanRecursive sh max_depth children → b.total_count = 0)
    ∧ (∀ (children : List (Option DirEntry)) (k : Nat) (b : ScanResult),
        (scanDirectory sh children)[k]? = some b →
        b.total_count
          = (((scanDirectory sh children).take (k + 1)).map
              (fun x => x.entries.length)).sum) := by
  constructor
  · intro md children b hb
    exact scanRecursiveGo_total_zero sh md children b hb
  · intro children k b hb
    have := scanDirectoryLoop_running_total sh children [] 0 0 k b (by simp) hb
    simpa using this

/-- Witness for C10 at a one-entry recursive scan and a two-entry shallow
scan. -/
theorem c10_totals_witness :
    (⟨[sampleEntry 0], 0, false⟩ : ScanResult)
        ∈ scanRecursive true 32 [FsNode.ok (sampleEntry 0) []]
    ∧ (⟨[sampleEntry 0], 0, false⟩ : ScanResult).total_count = 0
    ∧ (scanDirectory true [some (sampleEntry 0), some (sampleEntry 1)])[0]?
        = some ⟨[sampleEntry 0, sampleEntry 1], 2, true⟩
    ∧ (⟨[sampleEntry 0, sampleEntry 1], 2, true⟩ : ScanResult).total_count
        = (((scanDirectory true
              [some (sampleEntry 0), some (sampleEntry 1)]).take 1).map
            (fun x => x.entries.length)).sum := by
  refine ⟨by decide, (c10_totals true).1 32 [FsNode.ok (sampleEntry 0) []]
      ⟨[sampleEntry 0], 0, false⟩ (by decide), by decide,
    (c10_totals true).2 [some (sampleEntry 0), some (sampleEntry 1)] 0
      ⟨[sampleEntry 0, sampleEntry 1], 2, true⟩ (by decide)⟩

end Cheese
